import Mathlib

/- Shallow embedding of the elevator simulation in src/main.py.

   Floors are integers.  The per-car Request Store is the pair of fields
   internal_requests (a list without duplicates, Python list) and
   external_requests (an association list from floor to direction, modelling
   the insertion-ordered Python dict).  The heapq min-heap of the LOOK
   scheduler is modelled by draining it to a sorted list: pushing a set of
   keys and popping until empty yields them in ascending order, and the
   down-heap stores negated floors exactly as the source does. -/

namespace ElevatorLLD

inductive Direction
  | up
  | down
  | idle
deriving DecidableEq

inductive Status
  | moving
  | stopped
  | idle
deriving DecidableEq

/-- State of ElevatorCar (src/main.py lines 152-165): observers, display and
logger carry no scheduling state and are dropped; the emitted events are
returned explicitly instead. -/
structure ElevatorCar where
  id : Nat
  current_floor : Int
  status : Status
  direction : Direction
  internal_requests : List Int
  external_requests : List (Int × Direction)
deriving DecidableEq

/-- Observable notifications: one traverse event per floor printed by
Display.show_movement, and one arrival event per notify() call at the end of
move_to_floor. -/
inductive Event
  | traverse (id : Nat) (floor : Int)
  | arrival (id : Nat) (floor : Int) (dir : Direction)
deriving DecidableEq

/-- Floors printed by Display.show_movement (lines 112-116): step is +1 when
target is above current and -1 otherwise, and the printed floors run from
current+step through target inclusive (empty when target equals current). -/
def show_movement (current target : Int) : List Int :=
  if target > current then
    (List.range (target - current).toNat).map
      (fun (i : Nat) => current + 1 + (i : Int))
  else
    (List.range (current - target).toNat).map
      (fun (i : Nat) => current - 1 - (i : Int))

/-- ElevatorCar.move_to_floor (lines 178-183): show the movement, recompute
the direction relative to the previous floor, update the floor, mark the car
stopped and notify observers (the arrival event). -/
def move_to_floor (e : ElevatorCar) (floor : Int) : ElevatorCar × List Event :=
  let travs := (show_movement e.current_floor floor).map (Event.traverse e.id)
  let dir := if floor > e.current_floor then Direction.up
    else if floor < e.current_floor then Direction.down else Direction.idle
  ({ e with direction := dir, current_floor := floor, status := Status.stopped },
    travs ++ [Event.arrival e.id floor dir])

/-- Repeated move_to_floor calls, as performed by the while loops that drain
a heap (lines 87-89 and 92-94). -/
def moveSeq (e : ElevatorCar) : List Int → ElevatorCar × List Event
  | [] => (e, [])
  | f :: fs =>
    let p := move_to_floor e f
    let q := moveSeq p.1 fs
    (q.1, p.2 ++ q.2)

/-- The set built at line 73: set(internal_requests + external_requests.keys()),
modelled as the duplicate-free list of those floors. -/
def pendingFloors (e : ElevatorCar) : List Int :=
  (e.internal_requests ++ e.external_requests.map Prod.fst).dedup

/-- The floors pushed onto up_heap at lines 79-80. -/
def aboveFloors (e : ElevatorCar) : List Int :=
  (pendingFloors e).filter (fun f => e.current_floor < f)

/-- The floors pushed (negated) onto down_heap at lines 81-82. -/
def belowFloors (e : ElevatorCar) : List Int :=
  (pendingFloors e).filter (fun f => f < e.current_floor)

/-- Draining a heapq min-heap holding these keys yields them in ascending
order. -/
def upHeapDrain (l : List Int) : List Int :=
  List.insertionSort (fun a b => a ≤ b) l

/-- The down-heap holds the negated floors (line 82) and each pop is negated
back (line 93), so the drain yields the floors in descending order. -/
def downHeapDrain (l : List Int) : List Int :=
  (List.insertionSort (fun a b => a ≤ b) (l.map Neg.neg)).map Neg.neg

/-- LookAlgorithm.process_requests (lines 72-99).  The partition loop services
a floor equal to the current floor by an in-place move_to_floor (line 84);
since that move leaves current_floor unchanged and the heaps are independent
of the loop order, it is hoisted before the two drain branches, preserving
event order.  The up branch runs when the direction is Idle or Up (line 86),
and the down branch when the direction is Idle or Down or the up-heap is
empty at that point (line 91).  Lines 96-99 then reset the car and clear the
store unconditionally. -/
def process_requests (e : ElevatorCar) : ElevatorCar × List Event :=
  let upHeap := upHeapDrain (aboveFloors e)
  let downFloors := downHeapDrain (belowFloors e)
  let p1 := if e.current_floor ∈ pendingFloors e
    then move_to_floor e e.current_floor else (e, [])
  let p2 := if p1.1.direction = Direction.idle ∨ p1.1.direction = Direction.up
    then moveSeq p1.1 upHeap else (p1.1, [])
  let upHeapAfter : List Int :=
    if p1.1.direction = Direction.idle ∨ p1.1.direction = Direction.up
    then [] else upHeap
  let p3 := if p2.1.direction = Direction.idle ∨ p2.1.direction = Direction.down
      ∨ upHeapAfter = []
    then moveSeq p2.1 downFloors else (p2.1, [])
  ({ p3.1 with
      status := Status.idle
      direction := Direction.idle
      internal_requests := []
      external_requests := [] },
    p1.2 ++ p2.2 ++ p3.2)

/-- ElevatorCar.press_internal_button (lines 170-172). -/
def press_internal_button (e : ElevatorCar) (floor : Int) : ElevatorCar :=
  if floor ∈ e.internal_requests then e
  else { e with internal_requests := e.internal_requests ++ [floor] }

/-- ElevatorCar.add_external_request (lines 174-176): insert only when the
floor is not yet a key; a Python dict appends new keys at the end. -/
def add_external_request (e : ElevatorCar) (floor : Int) (dir : Direction) :
    ElevatorCar :=
  if (e.external_requests.lookup floor).isSome then e
  else { e with external_requests := e.external_requests ++ [(floor, dir)] }

/-- The controller's dict of elevators keyed by id. -/
abbrev ElevatorMap := List (Nat × ElevatorCar)

/-- Mutating the car stored under a key of the dict. -/
def updateCar (m : ElevatorMap) (k : Nat) (f : ElevatorCar → ElevatorCar) :
    ElevatorMap :=
  m.map (fun p => if p.1 = k then (p.1, f p.2) else p)

/-- OddDispatcher.assign_elevator (lines 44-46). -/
def OddDispatcher.assign_elevator (m : ElevatorMap) (floor : Int)
    (dir : Direction) : ElevatorMap :=
  if floor % 2 = 1 ∧ (m.lookup 0).isSome then
    updateCar m 0 (fun e => add_external_request e floor dir)
  else m

/-- EvenDispatcher.assign_elevator (lines 52-54). -/
def EvenDispatcher.assign_elevator (m : ElevatorMap) (floor : Int)
    (dir : Direction) : ElevatorMap :=
  if floor % 2 = 0 ∧ (m.lookup 1).isSome then
    updateCar m 1 (fun e => add_external_request e floor dir)
  else m

/-- FixedDispatcher.assign_elevator (lines 61-63). -/
def FixedDispatcher.assign_elevator (m : ElevatorMap) (fixed_floors : List Int)
    (floor : Int) (dir : Direction) : ElevatorMap :=
  if floor ∈ fixed_floors ∧ (m.lookup 2).isSome then
    updateCar m 2 (fun e => add_external_request e floor dir)
  else m

/-- ElevatorController.handle_external_request (lines 198-200): every strategy
of the list [OddDispatcher, EvenDispatcher, FixedDispatcher] is invoked in
order. -/
def handle_external_request (m : ElevatorMap) (fixed_floors : List Int)
    (floor : Int) (dir : Direction) : ElevatorMap :=
  FixedDispatcher.assign_elevator
    (EvenDispatcher.assign_elevator
      (OddDispatcher.assign_elevator m floor dir) floor dir)
    fixed_floors floor dir

/-- A freshly constructed ElevatorCar (lines 153-163). -/
def ElevatorCar.init (i : Nat) : ElevatorCar :=
  { id := i, current_floor := 0, status := Status.idle,
    direction := Direction.idle, internal_requests := [],
    external_requests := [] }

/-- The floors carried by arrival events, in order. -/
def arrivalFloors (evs : List Event) : List Int :=
  evs.filterMap (fun ev => match ev with
    | Event.arrival _ f _ => some f
    | Event.traverse _ _ => none)

/-- The floors carried by traverse events, in order. -/
def traverseFloors (evs : List Event) : List Int :=
  evs.filterMap (fun ev => match ev with
    | Event.traverse _ f => some f
    | Event.arrival _ _ _ => none)

/-- A three-car bank as in the demo configuration (lines 215-216). -/
def demoElevators : ElevatorMap :=
  [(0, ElevatorCar.init 0), (1, ElevatorCar.init 1), (2, ElevatorCar.init 2)]

def demoFixed : List Int := [0, 5, 9]

/-- Witness car: direction Up at floor 5 with mixed pending requests. -/
def carUp : ElevatorCar :=
  { id := 0, current_floor := 5, status := Status.idle,
    direction := Direction.up, internal_requests := [7, 10, 4],
    external_requests := [(2, Direction.down)] }

/-- Direction Down at floor 5 with a request at the current floor and one
above it. -/
def carDownEq : ElevatorCar :=
  { id := 0, current_floor := 5, status := Status.idle,
    direction := Direction.down, internal_requests := [5, 7],
    external_requests := [] }

/-- Same as carDownEq but without the request at the current floor. -/
def carDownNoEq : ElevatorCar :=
  { id := 0, current_floor := 5, status := Status.idle,
    direction := Direction.down, internal_requests := [7],
    external_requests := [] }

/-- Direction Up at floor 5 with a request at the current floor. -/
def carUpEq : ElevatorCar :=
  { id := 0, current_floor := 5, status := Status.idle,
    direction := Direction.up, internal_requests := [5, 7, 3],
    external_requests := [] }

/-- A car that already holds a hall call for floor 3. -/
def carHall3 : ElevatorCar :=
  { id := 0, current_floor := 0, status := Status.idle,
    direction := Direction.idle, internal_requests := [],
    external_requests := [(3, Direction.up)] }

/-- A one-car bank holding only the odd-policy car of id 0. -/
def soloElevators : ElevatorMap := [(0, ElevatorCar.init 0)]

/- ------------------------------------------------------------------ -/
/- Theorems                                                           -/
/- ------------------------------------------------------------------ -/

/-- C2: after process_requests, the Request Store is empty, the status is
Idle and the direction is Idle, for every car state (lines 96-99 run
unconditionally). -/
theorem process_requests_clears_and_idles (e : ElevatorCar) :
    (process_requests e).1.internal_requests = []
    ∧ (process_requests e).1.external_requests = []
    ∧ (process_requests e).1.status = Status.idle
    ∧ (process_requests e).1.direction = Direction.idle :=
  ⟨rfl, rfl, rfl, rfl⟩

/-- C5: the pending-floor set consumed by the scheduler has no duplicates and
is the union of the cabin-request floors and the hall-call floors. -/
theorem pendingFloors_nodup_and_union (e : ElevatorCar) :
    (pendingFloors e).Nodup
    ∧ ∀ f : Int, f ∈ pendingFloors e ↔
        (f ∈ e.internal_requests ∨ f ∈ e.external_requests.map Prod.fst) := by
  refine ⟨List.nodup_dedup _, fun f => ?_⟩
  simp [pendingFloors]

theorem lookup_append_right {β : Type} {l1 l2 : List (Int × β)} {k : Int}
    (h : l1.lookup k = none) : (l1 ++ l2).lookup k = l2.lookup k := by
  induction l1 with
  | nil => rfl
  | cons a t ih =>
    rcases a with ⟨a1, a2⟩
    by_cases hk : k == a1
    · simp [List.lookup, hk] at h
    · simp only [List.cons_append, List.lookup, hk] at h ⊢
      exact ih h

/-- C3 counterexample: with an empty store, adding a hall call for floor 3
with direction Up and then again with direction Down leaves Up recorded, not
Down; the second call does not overwrite the first. -/
theorem second_hall_call_direction_not_recorded :
    ((add_external_request (add_external_request (ElevatorCar.init 0) 3
        Direction.up) 3 Direction.down).external_requests.lookup 3)
      ≠ some Direction.down := by decide

/-- C3 amended: if addHallCall is called for a floor not yet in the store
with direction d1 and then again for the same floor with direction d2, the
recorded direction stays d1 — the second call is silently ignored. -/
theorem second_hall_call_keeps_first_direction (e : ElevatorCar) (floor : Int)
    (d1 d2 : Direction) (h : e.external_requests.lookup floor = none) :
    List.lookup floor (add_external_request (add_external_request e floor d1)
      floor d2).external_requests = some d1 := by
  have h1 : (add_external_request e floor d1).external_requests
      = e.external_requests ++ [(floor, d1)] := by
    simp [add_external_request, h]
  have h2 : List.lookup floor
      (add_external_request e floor d1).external_requests = some d1 := by
    rw [h1, lookup_append_right h]
    simp [List.lookup]
  generalize hE : add_external_request e floor d1 = e1 at h2 ⊢
  simp [add_external_request, h2]

theorem second_hall_call_keeps_first_direction_witness :
    (ElevatorCar.init 0).external_requests.lookup 3 = none
    ∧ List.lookup 3 (ElevatorCar.external_requests (add_external_request
        (add_external_request (ElevatorCar.init 0) 3 Direction.up)
        3 Direction.down))
      = some Direction.up :=
  ⟨by decide,
    second_hall_call_keeps_first_direction (ElevatorCar.init 0) 3
      Direction.up Direction.down (by decide)⟩

/-- C9: when a floor already has a direction recorded in the external-request
mapping, a further add_external_request for that floor leaves the whole car
state unchanged, so the first recorded direction is retained. -/
theorem add_external_request_noop_when_present (e : ElevatorCar) (floor : Int)
    (d : Direction) (h : (e.external_requests.lookup floor).isSome) :
    add_external_request e floor d = e := by
  simp [add_external_request, h]

theorem add_external_request_noop_when_present_witness :
    ((carHall3.external_requests.lookup 3).isSome = true)
    ∧ add_external_request carHall3 3 Direction.down = carHall3 :=
  ⟨by decide, add_external_request_noop_when_present carHall3 3
    Direction.down (by decide)⟩

/-- C6: pressing the same cabin button twice before a cycle runs is
idempotent — the second press is a no-op — and leaves exactly one pending
internal request for that floor. -/
theorem press_internal_button_idempotent (e : ElevatorCar) (floor : Int)
    (h : e.internal_requests.count floor ≤ 1) :
    press_internal_button (press_internal_button e floor) floor
      = press_internal_button e floor
    ∧ List.count floor (ElevatorCar.internal_requests
        (press_internal_button (press_internal_button e floor) floor)) = 1 := by
  by_cases hm : floor ∈ e.internal_requests
  · have h1 : press_internal_button e floor = e := by
      simp [press_internal_button, hm]
    rw [h1, h1]
    refine ⟨rfl, ?_⟩
    have := List.count_pos_iff.mpr hm
    omega
  · have h1 : press_internal_button e floor
        = { e with internal_requests := e.internal_requests ++ [floor] } := by
      simp [press_internal_button, hm]
    have h2 : press_internal_button (press_internal_button e floor) floor
        = press_internal_button e floor := by
      rw [h1]
      simp [press_internal_button]
    refine ⟨h2, ?_⟩
    rw [h2, h1]
    simp [List.count_append, List.count_eq_zero_of_not_mem hm]

theorem press_internal_button_idempotent_witness :
    (ElevatorCar.init 0).internal_requests.count 3 ≤ 1
    ∧ press_internal_button (press_internal_button (ElevatorCar.init 0) 3) 3
        = press_internal_button (ElevatorCar.init 0) 3
    ∧ List.count 3 (ElevatorCar.internal_requests (press_internal_button
        (press_internal_button (ElevatorCar.init 0) 3) 3)) = 1 := by
  have h := press_internal_button_idempotent (ElevatorCar.init 0) 3 (by decide)
  exact ⟨by decide, h.1, h.2⟩

/-- C4: the dispatch router invokes every policy in list order and does not
stop at the first match: with cars 0 (odd), 1 (even), 2 (fixed set
containing 0, 5 and 9) present, a hall call at floor 3 lands only in car 0's
store, a hall call at floor 9 lands in car 2's store, and a hall call at
floor 5 — both odd and in the fixed set — lands in both car 0's and car 2's
stores, for every call direction. -/
theorem dispatch_broadcast_to_all_matching (d : Direction) :
    (((handle_external_request demoElevators demoFixed 3 d).lookup 0).map
        ElevatorCar.external_requests = some [(3, d)]
      ∧ ((handle_external_request demoElevators demoFixed 3 d).lookup 1).map
        ElevatorCar.external_requests = some []
      ∧ ((handle_external_request demoElevators demoFixed 3 d).lookup 2).map
        ElevatorCar.external_requests = some [])
    ∧ ((handle_external_request demoElevators demoFixed 9 d).lookup 2).map
        ElevatorCar.external_requests = some [(9, d)]
    ∧ (((handle_external_request demoElevators demoFixed 5 d).lookup 0).map
        ElevatorCar.external_requests = some [(5, d)]
      ∧ ((handle_external_request demoElevators demoFixed 5 d).lookup 2).map
        ElevatorCar.external_requests = some [(5, d)]) := by
  cases d <;> decide

/-- C10: each policy enqueues only into its hard-coded car id (0 odd, 1 even,
2 fixed); a hall call whose eligible policies all target absent ids leaves
the elevator map — hence every car's Request Store — unchanged, and the
handler is total (no error path). -/
theorem handle_external_request_absent_ids (m : ElevatorMap)
    (fixed_floors : List Int) (floor : Int) (d : Direction)
    (h0 : floor % 2 = 1 → m.lookup 0 = none)
    (h1 : floor % 2 = 0 → m.lookup 1 = none)
    (h2 : floor ∈ fixed_floors → m.lookup 2 = none) :
    handle_external_request m fixed_floors floor d = m := by
  have e0 : OddDispatcher.assign_elevator m floor d = m := by
    by_cases hp : floor % 2 = 1
    · simp [OddDispatcher.assign_elevator, h0 hp]
    · simp [OddDispatcher.assign_elevator, hp]
  have e1 : EvenDispatcher.assign_elevator m floor d = m := by
    by_cases hp : floor % 2 = 0
    · simp [EvenDispatcher.assign_elevator, h1 hp]
    · simp [EvenDispatcher.assign_elevator, hp]
  have e2 : FixedDispatcher.assign_elevator m fixed_floors floor d = m := by
    by_cases hp : floor ∈ fixed_floors
    · simp [FixedDispatcher.assign_elevator, h2 hp]
    · simp [FixedDispatcher.assign_elevator, hp]
  rw [handle_external_request, e0, e1, e2]

theorem handle_external_request_absent_ids_witness :
    ((4 : Int) % 2 = 1 → soloElevators.lookup 0 = none)
    ∧ ((4 : Int) % 2 = 0 → soloElevators.lookup 1 = none)
    ∧ ((4 : Int) ∈ demoFixed → soloElevators.lookup 2 = none)
    ∧ handle_external_request soloElevators demoFixed 4 Direction.up
        = soloElevators :=
  ⟨by decide, by decide, by decide,
    handle_external_request_absent_ids soloElevators demoFixed 4 Direction.up
      (by decide) (by decide) (by decide)⟩

theorem arrivalFloors_append (a b : List Event) :
    arrivalFloors (a ++ b) = arrivalFloors a ++ arrivalFloors b := by
  simp [arrivalFloors]

theorem arrivalFloors_traverse_map (i : Nat) (l : List Int) :
    arrivalFloors (l.map (Event.traverse i)) = [] := by
  induction l with
  | nil => rfl
  | cons a t ih => simp [arrivalFloors, List.filterMap_cons] at ih ⊢

theorem arrivalFloors_nil : arrivalFloors [] = [] := rfl

theorem arrivalFloors_arrival_single (i : Nat) (f : Int) (d : Direction) :
    arrivalFloors [Event.arrival i f d] = [f] := rfl

theorem arrivalFloors_arrival_cons (i : Nat) (f : Int) (d : Direction)
    (evs : List Event) :
    arrivalFloors (Event.arrival i f d :: evs) = f :: arrivalFloors evs := rfl

theorem arrivalFloors_move_to_floor (e : ElevatorCar) (f : Int) :
    arrivalFloors (move_to_floor e f).2 = [f] := by
  simp [move_to_floor, arrivalFloors_append, arrivalFloors_traverse_map,
    arrivalFloors]

theorem arrivalFloors_moveSeq (e : ElevatorCar) (l : List Int) :
    arrivalFloors (moveSeq e l).2 = l := by
  induction l generalizing e with
  | nil => rfl
  | cons f fs ih =>
    simp [moveSeq, arrivalFloors_append, arrivalFloors_move_to_floor, ih]

theorem move_to_floor_self (e : ElevatorCar) :
    move_to_floor e e.current_floor
      = ({ e with direction := Direction.idle, status := Status.stopped },
        [Event.arrival e.id e.current_floor Direction.idle]) := by
  simp [move_to_floor, show_movement]

/-- When the direction is Idle or Up at the start of the cycle, both drain
branches of process_requests run: the event trace is the in-place service of
the current floor (when pending), then the up-heap drain, then the down-heap
drain. -/
theorem look_events (e : ElevatorCar)
    (hd : e.direction = Direction.idle ∨ e.direction = Direction.up) :
    (process_requests e).2
      = (if e.current_floor ∈ pendingFloors e
          then [Event.arrival e.id e.current_floor Direction.idle] else [])
        ++ (moveSeq (if e.current_floor ∈ pendingFloors e
              then (move_to_floor e e.current_floor).1 else e)
            (upHeapDrain (aboveFloors e))).2
        ++ (moveSeq (moveSeq (if e.current_floor ∈ pendingFloors e
              then (move_to_floor e e.current_floor).1 else e)
            (upHeapDrain (aboveFloors e))).1 (downHeapDrain (belowFloors e))).2 := by
  by_cases h : e.current_floor ∈ pendingFloors e
  · simp [process_requests, if_pos h, move_to_floor_self]
  · rcases hd with hd | hd <;>
      simp [process_requests, if_neg h, hd]

theorem look_arrivals (e : ElevatorCar)
    (hd : e.direction = Direction.idle ∨ e.direction = Direction.up) :
    arrivalFloors (process_requests e).2
      = (if e.current_floor ∈ pendingFloors e then [e.current_floor] else [])
        ++ upHeapDrain (aboveFloors e) ++ downHeapDrain (belowFloors e) := by
  rw [look_events e hd]
  by_cases h : e.current_floor ∈ pendingFloors e <;>
    simp [h, arrivalFloors_append, arrivalFloors_moveSeq, arrivalFloors_nil,
      arrivalFloors_arrival_single, arrivalFloors_arrival_cons]

theorem nodup_aboveFloors (e : ElevatorCar) : (aboveFloors e).Nodup :=
  (List.nodup_dedup _).filter _

theorem nodup_belowFloors (e : ElevatorCar) : (belowFloors e).Nodup :=
  (List.nodup_dedup _).filter _

theorem upHeapDrain_perm (l : List Int) : (upHeapDrain l).Perm l :=
  List.perm_insertionSort _ l

theorem upHeapDrain_sorted (l : List Int) (h : l.Nodup) :
    List.Sorted (· < ·) (upHeapDrain l) := by
  have hs : List.Sorted (fun a b => a ≤ b) (upHeapDrain l) :=
    List.sorted_insertionSort _ l
  have hn : (upHeapDrain l).Nodup := (List.perm_insertionSort _ l).symm.nodup h
  exact hs.lt_of_le hn

theorem downHeapDrain_perm (l : List Int) : (downHeapDrain l).Perm l := by
  have h1 := (List.perm_insertionSort (fun a b => a ≤ b) (l.map Neg.neg)).map
    Neg.neg
  have h2 : (l.map Neg.neg).map Neg.neg = l := by simp
  have h3 : ((l.map Neg.neg).map Neg.neg).Perm l := by
    rw [h2]
  exact h1.trans h3

theorem downHeapDrain_sorted (l : List Int) (h : l.Nodup) :
    List.Sorted (· > ·) (downHeapDrain l) := by
  have hn : (l.map Neg.neg).Nodup := h.map neg_injective
  have hs : List.Sorted (fun a b => a < b)
      (List.insertionSort (fun a b => a ≤ b) (l.map Neg.neg)) :=
    (List.sorted_insertionSort _ _).lt_of_le
      ((List.perm_insertionSort _ _).symm.nodup hn)
  rw [downHeapDrain]
  show List.Pairwise _ _
  refine List.pairwise_map.mpr ?_
  exact List.Pairwise.imp (fun hab => by omega) hs

theorem upHeapDrain_single (a : Int) : upHeapDrain [a] = [a] := rfl

theorem upHeapDrain_pair (a b : Int) (h : a < b) : upHeapDrain [a, b] = [a, b] := by
  simp [upHeapDrain, List.insertionSort, List.orderedInsert, le_of_lt h]

theorem downHeapDrain_single (a : Int) : downHeapDrain [a] = [a] := by
  simp [downHeapDrain, List.insertionSort, List.orderedInsert]

theorem downHeapDrain_pair (a b : Int) (h : a < b) :
    downHeapDrain [a, b] = [b, a] := by
  simp [downHeapDrain, List.insertionSort, List.orderedInsert,
    show ¬(-a ≤ -b) by omega]

theorem look_example_up (F : Int) :
    arrivalFloors (process_requests
      (⟨0, F, Status.idle, Direction.up, [F + 2, F + 5, F - 1], []⟩ :
        ElevatorCar)).2
      = [F + 2, F + 5, F - 1] := by
  have hp : pendingFloors
      (⟨0, F, Status.idle, Direction.up, [F + 2, F + 5, F - 1], []⟩ :
        ElevatorCar) = [F + 2, F + 5, F - 1] := by
    rw [pendingFloors]
    simp only [List.map_nil, List.append_nil]
    exact List.dedup_eq_self.mpr (by simp; omega)
  have hmem : ¬((⟨0, F, Status.idle, Direction.up, [F + 2, F + 5, F - 1], []⟩ :
      ElevatorCar).current_floor ∈ pendingFloors
      (⟨0, F, Status.idle, Direction.up, [F + 2, F + 5, F - 1], []⟩ :
        ElevatorCar)) := by
    rw [hp]
    simp
    omega
  have ha : aboveFloors
      (⟨0, F, Status.idle, Direction.up, [F + 2, F + 5, F - 1], []⟩ :
        ElevatorCar) = [F + 2, F + 5] := by
    rw [aboveFloors, hp]
    simp [List.filter_cons, show F < F + 2 by omega, show F < F + 5 by omega,
      show ¬(F < F - 1) by omega]
  have hb : belowFloors
      (⟨0, F, Status.idle, Direction.up, [F + 2, F + 5, F - 1], []⟩ :
        ElevatorCar) = [F - 1] := by
    rw [belowFloors, hp]
    simp [List.filter_cons, show ¬(F + 2 < F) by omega,
      show ¬(F + 5 < F) by omega, show F - 1 < F by omega]
  rw [look_arrivals _ (Or.inr rfl), if_neg hmem, ha, hb,
    upHeapDrain_pair _ _ (by omega), downHeapDrain_single]
  simp

theorem look_example_idle (F : Int) :
    arrivalFloors (process_requests
      (⟨0, F, Status.idle, Direction.idle, [F - 3, F - 1, F + 4], []⟩ :
        ElevatorCar)).2
      = [F + 4, F - 1, F - 3] := by
  have hp : pendingFloors
      (⟨0, F, Status.idle, Direction.idle, [F - 3, F - 1, F + 4], []⟩ :
        ElevatorCar) = [F - 3, F - 1, F + 4] := by
    rw [pendingFloors]
    simp only [List.map_nil, List.append_nil]
    exact List.dedup_eq_self.mpr (by simp; omega)
  have hmem : ¬((⟨0, F, Status.idle, Direction.idle, [F - 3, F - 1, F + 4], []⟩ :
      ElevatorCar).current_floor ∈ pendingFloors
      (⟨0, F, Status.idle, Direction.idle, [F - 3, F - 1, F + 4], []⟩ :
        ElevatorCar)) := by
    rw [hp]
    simp
    omega
  have ha : aboveFloors
      (⟨0, F, Status.idle, Direction.idle, [F - 3, F - 1, F + 4], []⟩ :
        ElevatorCar) = [F + 4] := by
    rw [aboveFloors, hp]
    simp [List.filter_cons, show ¬(F < F - 3) by omega,
      show ¬(F < F - 1) by omega, show F < F + 4 by omega]
  have hb : belowFloors
      (⟨0, F, Status.idle, Direction.idle, [F - 3, F - 1, F + 4], []⟩ :
        ElevatorCar) = [F - 3, F - 1] := by
    rw [belowFloors, hp]
    simp [List.filter_cons, show F - 3 < F by omega, show F - 1 < F by omega,
      show ¬(F + 4 < F) by omega]
  rw [look_arrivals _ (Or.inl rfl), if_neg hmem, ha, hb, upHeapDrain_single,
    downHeapDrain_pair _ _ (by omega)]
  simp

/-- C1: when the direction at the start of a processing cycle is Idle or Up,
the sequence of serviced floors is: the current floor if pending (serviced
in place), then every pending floor strictly above the current floor in
strictly ascending order, then every pending floor strictly below in
strictly descending order (nearest below first).  In particular with current
floor F, direction Up and pending floors F+2, F+5, F-1 the visiting order is
F+2, F+5, F-1, and with direction Idle and pending floors F-3, F-1, F+4 it
is F+4, F-1, F-3. -/
theorem look_visits_above_ascending_then_below_descending (e : ElevatorCar)
    (hd : e.direction = Direction.idle ∨ e.direction = Direction.up) :
    (arrivalFloors (process_requests e).2
      = (if e.current_floor ∈ pendingFloors e then [e.current_floor] else [])
        ++ upHeapDrain (aboveFloors e) ++ downHeapDrain (belowFloors e))
    ∧ List.Sorted (· < ·) (upHeapDrain (aboveFloors e))
    ∧ (upHeapDrain (aboveFloors e)).Perm (aboveFloors e)
    ∧ List.Sorted (· > ·) (downHeapDrain (belowFloors e))
    ∧ (downHeapDrain (belowFloors e)).Perm (belowFloors e)
    ∧ (∀ F : Int, arrivalFloors (process_requests
        (⟨0, F, Status.idle, Direction.up, [F + 2, F + 5, F - 1], []⟩ :
          ElevatorCar)).2 = [F + 2, F + 5, F - 1])
    ∧ (∀ F : Int, arrivalFloors (process_requests
        (⟨0, F, Status.idle, Direction.idle, [F - 3, F - 1, F + 4], []⟩ :
          ElevatorCar)).2 = [F + 4, F - 1, F - 3]) :=
  ⟨look_arrivals e hd,
    upHeapDrain_sorted _ (nodup_aboveFloors e),
    upHeapDrain_perm _,
    downHeapDrain_sorted _ (nodup_belowFloors e),
    downHeapDrain_perm _,
    look_example_up,
    look_example_idle⟩

theorem look_visits_above_ascending_then_below_descending_witness :
    (carUp.direction = Direction.idle ∨ carUp.direction = Direction.up)
    ∧ arrivalFloors (process_requests carUp).2 = [7, 10, 4, 2] := by
  refine ⟨Or.inr rfl, ?_⟩
  rw [(look_visits_above_ascending_then_below_descending carUp
    (Or.inr rfl)).1]
  decide

/-- C7 counterexample: at floor 5 with direction Down, the store holding
floors 5 and 7 leads to visiting 5 and then 7 — servicing the equal floor
resets the direction to Idle, which makes the ascending branch run — while
the same store without floor 5 visits nothing at all.  So the presence of a
floor equal to the current floor does change whether the ascending branch
executes and which other floors are visited. -/
theorem equal_floor_changes_other_visits :
    List.filter (fun f => f ≠ 5) (arrivalFloors (process_requests carDownEq).2)
      ≠ arrivalFloors (process_requests carDownNoEq).2 := by decide

/-- C7 amended: a pending floor equal to the current floor is serviced first
and without any traversal event; when the direction is Idle or Up its
presence does not change which other floors the two scan branches visit
(they are still the above floors ascending then the below floors
descending, exactly as for a car with the same above and below sets and no
equal-floor request); with direction Down, however, servicing it resets the
direction to Idle and enables the ascending branch. -/
theorem equal_floor_serviced_in_place (e : ElevatorCar)
    (h : e.current_floor ∈ pendingFloors e)
    (hd : e.direction = Direction.idle ∨ e.direction = Direction.up) :
    (move_to_floor e e.current_floor).2
      = [Event.arrival e.id e.current_floor Direction.idle]
    ∧ List.head? (process_requests e).2
      = some (Event.arrival e.id e.current_floor Direction.idle)
    ∧ arrivalFloors (process_requests e).2
      = e.current_floor :: (upHeapDrain (aboveFloors e)
          ++ downHeapDrain (belowFloors e))
    ∧ ∀ e' : ElevatorCar, e'.direction = e.direction →
        aboveFloors e' = aboveFloors e → belowFloors e' = belowFloors e →
        e'.current_floor ∉ pendingFloors e' →
        arrivalFloors (process_requests e').2
          = upHeapDrain (aboveFloors e) ++ downHeapDrain (belowFloors e) := by
  refine ⟨?_, ?_, ?_, ?_⟩
  · rw [move_to_floor_self]
  · rw [look_events e hd, if_pos h]
    simp
  · rw [look_arrivals e hd, if_pos h]
    simp
  · intro e' h1 h2 h3 h4
    have hd' : e'.direction = Direction.idle ∨ e'.direction = Direction.up := by
      rw [h1]
      exact hd
    rw [look_arrivals e' hd', if_neg h4, h2, h3]
    simp

theorem equal_floor_serviced_in_place_witness :
    carUpEq.current_floor ∈ pendingFloors carUpEq
    ∧ (carUpEq.direction = Direction.idle ∨ carUpEq.direction = Direction.up)
    ∧ arrivalFloors (process_requests carUpEq).2 = [5, 7, 3] := by
  refine ⟨by decide, Or.inr rfl, ?_⟩
  rw [(equal_floor_serviced_in_place carUpEq (by decide) (Or.inr rfl)).2.2.1]
  decide

theorem traverseFloors_append (a b : List Event) :
    traverseFloors (a ++ b) = traverseFloors a ++ traverseFloors b := by
  simp [traverseFloors]

theorem traverseFloors_traverse_map (i : Nat) (l : List Int) :
    traverseFloors (l.map (Event.traverse i)) = l := by
  induction l with
  | nil => rfl
  | cons a t ih =>
    simp [traverseFloors, List.filterMap_cons] at ih ⊢
    exact ih

theorem traverseFloors_arrival_single (i : Nat) (f : Int) (d : Direction) :
    traverseFloors [Event.arrival i f d] = [] := rfl

theorem traverseFloors_move_to_floor (e : ElevatorCar) (f : Int) :
    traverseFloors (move_to_floor e f).2 = show_movement e.current_floor f := by
  simp only [move_to_floor]
  rw [traverseFloors_append, traverseFloors_traverse_map,
    traverseFloors_arrival_single, List.append_nil]

/-- C8: a move from the current floor p to a stop q with q distinct from p
emits exactly one traversal notification for every floor strictly between p
and q and for q itself, ordered as physically traversed (ascending when
q is above p, descending when below), and the arrival notification for q
comes after all of them, as the last event of the move. -/
theorem move_traversal_events (e : ElevatorCar) (q : Int)
    (h : q ≠ e.current_floor) :
    (∀ f : Int, f ∈ traverseFloors (move_to_floor e q).2 ↔
        ((min e.current_floor q < f ∧ f < max e.current_floor q) ∨ f = q))
    ∧ (e.current_floor < q →
        List.Sorted (· < ·) (traverseFloors (move_to_floor e q).2))
    ∧ (q < e.current_floor →
        List.Sorted (· > ·) (traverseFloors (move_to_floor e q).2))
    ∧ List.getLast? (move_to_floor e q).2
        = some (Event.arrival e.id q ((move_to_floor e q).1.direction))
    ∧ arrivalFloors (move_to_floor e q).2 = [q] := by
  refine ⟨?_, ?_, ?_, ?_, arrivalFloors_move_to_floor e q⟩
  · intro f
    rw [traverseFloors_move_to_floor, show_movement]
    rcases lt_or_gt_of_ne h with hlt | hgt
    · rw [if_neg (by omega), min_eq_right hlt.le, max_eq_left hlt.le]
      simp only [List.mem_map, List.mem_range]
      constructor
      · rintro ⟨i, hi, rfl⟩
        omega
      · intro hf
        refine ⟨(e.current_floor - 1 - f).toNat, by omega, by omega⟩
    · rw [if_pos hgt, min_eq_left hgt.le, max_eq_right hgt.le]
      simp only [List.mem_map, List.mem_range]
      constructor
      · rintro ⟨i, hi, rfl⟩
        omega
      · intro hf
        refine ⟨(f - e.current_floor - 1).toNat, by omega, by omega⟩
  · intro hlt
    rw [traverseFloors_move_to_floor, show_movement, if_pos hlt]
    show List.Pairwise _ _
    refine List.pairwise_map.mpr ?_
    refine List.Pairwise.imp ?_ (List.pairwise_lt_range _)
    intro a b hab
    omega
  · intro hgt
    rw [traverseFloors_move_to_floor, show_movement, if_neg (by omega)]
    show List.Pairwise _ _
    refine List.pairwise_map.mpr ?_
    refine List.Pairwise.imp ?_ (List.pairwise_lt_range _)
    intro a b hab
    omega
  · simp [move_to_floor, List.getLast?_concat]

theorem move_traversal_events_witness :
    ((3 : Int) ≠ (ElevatorCar.init 0).current_floor)
    ∧ ((∀ f : Int,
        f ∈ traverseFloors (move_to_floor (ElevatorCar.init 0) 3).2 ↔
          ((min (ElevatorCar.init 0).current_floor 3 < f
            ∧ f < max (ElevatorCar.init 0).current_floor 3) ∨ f = 3))
      ∧ ((ElevatorCar.init 0).current_floor < 3 →
          List.Sorted (· < ·)
            (traverseFloors (move_to_floor (ElevatorCar.init 0) 3).2))
      ∧ (3 < (ElevatorCar.init 0).current_floor →
          List.Sorted (· > ·)
            (traverseFloors (move_to_floor (ElevatorCar.init 0) 3).2))
      ∧ List.getLast? (move_to_floor (ElevatorCar.init 0) 3).2
          = some (Event.arrival (ElevatorCar.init 0).id 3
              ((move_to_floor (ElevatorCar.init 0) 3).1.direction))
      ∧ arrivalFloors (move_to_floor (ElevatorCar.init 0) 3).2 = [3]) :=
  ⟨by decide, move_traversal_events (ElevatorCar.init 0) 3 (by decide)⟩
